import Mathlib

/-!
# Verification of the `hdlc` crate (HDLC byte-stuffing codec and stream frame reader)

Shallow embedding of `src/lib.rs`: `SpecialChars`, `encode`, `decode`,
`decode_slice`, and `FrameReader::read_frame`.  Bytes (`u8` in Rust) are
modelled as `Nat`; the code performs no byte arithmetic, only equality
comparisons, so no modular reduction arises.  Fallible functions return
`Except HDLCError`; the in-place decoder additionally returns the final
state of its caller-owned buffer, and a potential index-underflow panic of
the Rust code is modelled as an explicit `panic` outcome.
-/

namespace Hdlc

/-- The four special character values (`SpecialChars` in `src/lib.rs`). -/
structure SpecialChars where
  fend : Nat
  fesc : Nat
  tfend : Nat
  tfesc : Nat
deriving DecidableEq, Repr

/-- `SpecialChars::default()`: FEND 0x7E, FESC 0x7D, TFEND 0x5E, TFESC 0x5D. -/
def SpecialChars.default : SpecialChars :=
  { fend := 0x7E, fesc := 0x7D, tfend := 0x5E, tfesc := 0x5D }

/-- The error enumeration `HDLCError` of `src/lib.rs`. -/
inductive HDLCError where
  | DuplicateSpecialChar
  | FendCharInData
  | MissingTradeChar
  | MissingFirstFend
  | MissingFinalFend
deriving DecidableEq, Repr

/-- The `HashSet` duplicate test shared by `encode`, `decode` and
`decode_slice`: inserting `fend`, `fesc`, `tfend`, `tfesc` in order,
`true` iff some insertion hits an already-present value. -/
def dupCheck (s : SpecialChars) : Bool :=
  s.fesc == s.fend ||
  (s.tfend == s.fend || s.tfend == s.fesc) ||
  (s.tfesc == s.fend || s.tfesc == s.fesc || s.tfesc == s.tfend)

/-- The four special character values are pairwise distinct. -/
def Distinct (s : SpecialChars) : Prop :=
  s.fend ≠ s.fesc ∧ s.fend ≠ s.tfend ∧ s.fend ≠ s.tfesc ∧
  s.fesc ≠ s.tfend ∧ s.fesc ≠ s.tfesc ∧ s.tfend ≠ s.tfesc

instance (s : SpecialChars) : Decidable (Distinct s) := by
  unfold Distinct; infer_instance

/-- One step of the `encode` loop body: the two-byte substitution for
`fesc` and `fend`, all other bytes pass through.  (`fesc` is tested
before `fend`, as in the source.) -/
def escapeByte (s : SpecialChars) (b : Nat) : List Nat :=
  if b = s.fesc then [s.fesc, s.tfesc]
  else if b = s.fend then [s.fesc, s.tfend]
  else [b]

/-- The whole `encode` loop: every payload byte escaped, in order. -/
def escape (s : SpecialChars) : List Nat → List Nat
  | [] => []
  | b :: tl => escapeByte s b ++ escape s tl

/-- `encode` of `src/lib.rs`: duplicate check, then
`fend ++ escaped payload ++ fend`. -/
def encode (data : List Nat) (s : SpecialChars) : Except HDLCError (List Nat) :=
  if dupCheck s then .error .DuplicateSpecialChar
  else .ok (s.fend :: (escape s data ++ [s.fend]))

/-- The scanning loop of `decode`, after the leading `fend` has been
consumed: `fesc` consumes a following substitute (`tfend` ↦ `fend`,
`tfesc` ↦ `fesc`, anything else or end of input fails `MissingTradeChar`);
a `fend` must be the last byte (otherwise `FendCharInData`), ending the
scan successfully; other bytes are copied; running out of input without a
final `fend` fails `MissingFinalFend`. -/
def decodeLoop (s : SpecialChars) : List Nat → Except HDLCError (List Nat)
  | [] => .error .MissingFinalFend
  | v :: tl =>
    if v = s.fesc then
      match tl with
      | [] => .error .MissingTradeChar
      | w :: tl2 =>
        if w = s.tfend then (decodeLoop s tl2).map (s.fend :: ·)
        else if w = s.tfesc then (decodeLoop s tl2).map (s.fesc :: ·)
        else .error .MissingTradeChar
    else if v = s.fend then
      match tl with
      | [] => .ok []
      | _ :: _ => .error .FendCharInData
    else (decodeLoop s tl).map (v :: ·)

/-- `decode` of `src/lib.rs`: duplicate check, require a leading `fend`
(`MissingFirstFend` otherwise), then scan the remainder. -/
def decode (input : List Nat) (s : SpecialChars) : Except HDLCError (List Nat) :=
  if dupCheck s then .error .DuplicateSpecialChar
  else
    match input with
    | [] => .error .MissingFirstFend
    | b :: tl => if b = s.fend then decodeLoop s tl else .error .MissingFirstFend

-- Test vectors from the crate's doctests and `tests/framing.rs`.
example : encode [0x01, 0x50, 0x00, 0x00, 0x00, 0x05, 0x80, 0x09] SpecialChars.default =
    .ok [0x7E, 0x01, 0x50, 0x00, 0x00, 0x00, 0x05, 0x80, 0x09, 0x7E] := by rfl
example : encode [0x01, 0x7E, 0x00, 0x7D, 0x00, 0x05, 0x80, 0x09] SpecialChars.default =
    .ok [126, 1, 125, 94, 0, 125, 93, 0, 5, 128, 9, 126] := by rfl
example : encode [0x01, 0x7E, 0x70, 0x7D, 0x00, 0x05, 0x80, 0x09]
    (SpecialChars.mk 0x71 0x70 0x51 0x50) =
    .ok [0x71, 1, 126, 112, 80, 125, 0, 5, 128, 9, 0x71] := by rfl
example : decode [0x7E, 0x01, 0x50, 0x00, 0x00, 0x00, 0x05, 0x80, 0x09, 0x7E]
    SpecialChars.default = .ok [1, 80, 0, 0, 0, 5, 128, 9] := by rfl
example : decode [0x7E, 0x01, 0x7D, 0x5D, 0x00, 0x00, 0x7D, 0x5E, 0x05, 0x80, 0x09, 0x7E]
    SpecialChars.default = .ok [1, 125, 0, 0, 126, 5, 128, 9] := by rfl
example : decode [0x7E, 0x01, 0x00, 0x69, 0x00, 0x05, 0x80, 0x09, 0x7E, 0x7E]
    SpecialChars.default = .error .FendCharInData := by rfl
example : decode [0x7E, 0x01, 0x7D, 0x00, 0x7D, 0x00, 0x05, 0x80, 0x09, 0x7E]
    SpecialChars.default = .error .MissingTradeChar := by rfl
example : decode [0x7E, 0x01, 0x7D, 0x5D, 0x77, 0x00, 0x05, 0x80, 0x09]
    SpecialChars.default = .error .MissingFinalFend := by rfl
example : decode [0x01, 0x7E] (SpecialChars.mk 0x7E 0x7D 0x5D 0x5D) =
    .error .DuplicateSpecialChar := by rfl

/-- Outcome of `decode_slice`: a successful return of the decoded prefix,
an `HDLCError`, or a panic (`index - swap - 1` underflowing `usize`,
which aborts the Rust program whether it underflows in debug or indexes
out of bounds in release). -/
inductive DSOut where
  | ok : List Nat → DSOut
  | err : HDLCError → DSOut
  | panic : DSOut
deriving DecidableEq, Repr

/-- The `for (index, byte) in output.iter().enumerate()` loop of
`decode_slice`.  `rem` is the unread remainder of the snapshot copy
(`output` in the source, taken before any write), `idx` the current
index, `total` the input length, and `buf` the caller's buffer being
rewritten in place.  `swap`, `lastFesc` and `sync` are the loop counters
of the source.  Returns the outcome together with the final state of the
caller's buffer. -/
def decodeSliceLoop (s : SpecialChars) (total : Nat) :
    List Nat → Nat → Nat → Nat → Nat → List Nat → DSOut × List Nat
  | [], _, _, _, _, buf => (.err .MissingFinalFend, buf)
  | b :: tl, idx, swap, lastFesc, sync, buf =>
    if lastFesc > 0 then
      if b = s.tfesc then
        if idx < (swap + 1) + 1 then (.panic, buf)
        else decodeSliceLoop s total tl (idx + 1) (swap + 1) 0 sync
          (buf.set (idx - (swap + 1) - 1) s.fesc)
      else if b = s.tfend then
        if idx < (swap + 1) + 1 then (.panic, buf)
        else decodeSliceLoop s total tl (idx + 1) (swap + 1) 0 sync
          (buf.set (idx - (swap + 1) - 1) s.fend)
      else (.err .MissingTradeChar, buf)
    else if b = s.fend then
      if sync > 0 then
        if idx + 1 < total then (.err .FendCharInData, buf)
        else if idx < swap + 1 then (.panic, buf)
        else (.ok (buf.take (idx - swap - 1)), buf)
      else decodeSliceLoop s total tl (idx + 1) swap 0 1 buf
    else if b = s.fesc then decodeSliceLoop s total tl (idx + 1) swap 1 sync buf
    else if sync > 0 then
      if idx < swap + 1 then (.panic, buf)
      else decodeSliceLoop s total tl (idx + 1) swap 0 sync (buf.set (idx - swap - 1) b)
    else decodeSliceLoop s total tl (idx + 1) swap 0 sync buf

/-- `decode_slice` of `src/lib.rs`: duplicate check, then the in-place
scan.  The snapshot (`output` in the source) is the untouched input; the
second component of the result is the final state of the caller-owned
buffer (unchanged whenever the function returns before writing). -/
def decodeSlice (input : List Nat) (s : SpecialChars) : DSOut × List Nat :=
  if dupCheck s then (.err .DuplicateSpecialChar, input)
  else decodeSliceLoop s input.length input 0 0 0 0 input

-- `decode_slice` test vectors from `tests/framing.rs`.
example : (decodeSlice [0x7E, 0x01, 0x50, 0x00, 0x00, 0x00, 0x05, 0x80, 0x09, 0x7E]
    SpecialChars.default).1 = .ok [1, 80, 0, 0, 0, 5, 128, 9] := by decide
example : (decodeSlice [0x7E, 0x01, 0x7D, 0x5D, 0x00, 0x00, 0x7D, 0x5E, 0x05, 0x80, 0x09, 0x7E]
    SpecialChars.default).1 = .ok [1, 125, 0, 0, 126, 5, 128, 9] := by decide
example : (decodeSlice [0x71, 0x01, 0x7E, 0x70, 0x51, 0x00, 0x05, 0x80, 0x70, 0x50, 0x09, 0x71]
    (SpecialChars.mk 0x71 0x70 0x51 0x50)).1 =
    .ok [1, 126, 0x71, 0, 5, 128, 0x70, 9] := by decide
example : (decodeSlice [0x01, 0x7E, 0x00, 0x7D, 0x00, 0x05, 0x80, 0x09]
    (SpecialChars.mk 0x7E 0x7D 0x5D 0x5D)).1 = .err .DuplicateSpecialChar := by decide
example : (decodeSlice [0x7E, 0x01, 0x00, 0x69, 0x00, 0x05, 0x80, 0x09, 0x7E, 0x7E]
    SpecialChars.default).1 = .err .FendCharInData := by decide
example : (decodeSlice [0x7E, 0x01, 0x7D, 0x00, 0x7D, 0x00, 0x05, 0x80, 0x09, 0x7E]
    SpecialChars.default).1 = .err .MissingTradeChar := by decide
example : (decodeSlice [0x7E, 0x01, 0x7D, 0x5D, 0x77, 0x00, 0x05, 0x80, 0x09]
    SpecialChars.default).1 = .err .MissingFinalFend := by decide

/-- One result of the abstract source's `read` call: an I/O error, or a
chunk of bytes (`[]` for a read that returned `Ok(0)`, i.e. exhaustion). -/
inductive ReadRes where
  | ioErr : ReadRes
  | chunk : List Nat → ReadRes
deriving DecidableEq, Repr

/-- State of a `FrameReader`: the remaining results its source will
deliver (one per `read` call, exhausted source reads 0 bytes), and the
pending buffer `rest`. -/
structure RState where
  src : List ReadRes
  rest : List Nat
deriving DecidableEq, Repr

/-- The frame-detection loop of `read_frame`.  `data` is the whole
concatenated chunk (needed for the source's `data.get(frame.len())`
peek), `rem` its unread remainder, `frame` the frame accumulator,
`bc` the `bytes_checked` counter and `inFrame` the state flag.  Returns
`(full_frame, frame, bytes_checked)`. -/
def scanLoop (s : SpecialChars) (data : List Nat) :
    List Nat → List Nat → Nat → Bool → Bool × List Nat × Nat
  | [], frame, bc, _ => (false, frame, bc)
  | b :: tl, frame, bc, inFrame =>
    if b = s.fend then
      if inFrame then (true, frame ++ [b], bc + 1)
      else
        match data.get? (frame ++ [b]).length with
        | some nb =>
          if nb = s.fend then scanLoop s data tl (frame ++ [b]) (bc + 1) false
          else scanLoop s data tl
            ((frame ++ [b]).drop ((frame ++ [b]).length - 1)) (bc + 1) true
        | none => scanLoop s data tl
            ((frame ++ [b]).drop ((frame ++ [b]).length - 1)) (bc + 1) true
    else scanLoop s data tl (frame ++ [b]) (bc + 1) inFrame

/-- The bytes delivered by the source's next `read` call:
`reader.read(&mut buffer).ok().unwrap_or_default()` treats an I/O error
as zero bytes read, and an exhausted source reads zero bytes. -/
def chunkOf (src : List ReadRes) : List Nat :=
  match src.head? with
  | none => []
  | some .ioErr => []
  | some (.chunk c) => c

/-- Scan of the concatenated chunk plus the update of the pending buffer:
on a completed frame `rest` is cleared (`self.rest.clear()`) and then, as
always, extended with `data[bytes_checked..]`. -/
def readScan (s : SpecialChars) (rest chunk : List Nat) : Option (List Nat) × List Nat :=
  let data := rest ++ chunk
  let res := scanLoop s data data [] 0 false
  (if res.1 then some res.2.1 else none,
   (if res.1 then [] else rest) ++ data.drop res.2.2)

/-- `FrameReader::read_frame`: one `read` from the source (an I/O error
counts as zero bytes read); `None` when nothing was read and the pending
buffer is empty; otherwise scan `rest ++ chunk` and update `rest`. -/
def readFrame (s : SpecialChars) (st : RState) : Option (List Nat) × RState :=
  if (chunkOf st.src).isEmpty && st.rest.isEmpty then (none, ⟨st.src.tail, st.rest⟩)
  else ((readScan s st.rest (chunkOf st.src)).1,
    ⟨st.src.tail, (readScan s st.rest (chunkOf st.src)).2⟩)

/-- Repeatedly call `read_frame` until it yields `None` (the crate's
`Iterator` impl), collecting the frames; `fuel` bounds the number of
calls. -/
def framesAcc (s : SpecialChars) : Nat → RState → List (List Nat)
  | 0, _ => []
  | fuel + 1, st =>
    match readFrame s st with
    | (some f, st') => f :: framesAcc s fuel st'
    | (none, _) => []

/-- Number of payload bytes that `escape` expands to two bytes. -/
def escCount (s : SpecialChars) : List Nat → Nat
  | [] => 0
  | b :: tl => (if b = s.fesc then 1 else if b = s.fend then 1 else 0) + escCount s tl

/-- Overwriting `p` into `buf` starting at position `n`, as the in-place
decoder's sequence of `buf[k] = v` writes does. -/
def splice (buf : List Nat) (n : Nat) (p : List Nat) : List Nat :=
  buf.take n ++ p ++ buf.drop (n + p.length)

-- `FrameReader` test vectors from the doctest and `tests/framing.rs`
-- (a `Cursor` delivers everything in its first read).
example : framesAcc SpecialChars.default 4
    ⟨[.chunk [0x7E, 0x01, 0x50, 0x00, 0x01, 0x7E, 0x7E, 0x11, 0x12, 0x13, 0x14, 0x7E]], []⟩ =
    [[0x7E, 0x01, 0x50, 0x00, 0x01, 0x7E], [0x7E, 0x11, 0x12, 0x13, 0x14, 0x7E]] := by decide
example : framesAcc SpecialChars.default 4
    ⟨[.chunk [0x7E, 0x01, 0x00, 0x05, 0x80, 0x7E, 0x30, 0x10, 0x22]], []⟩ =
    [[126, 1, 0, 5, 128, 126]] := by decide
example : framesAcc SpecialChars.default 4
    ⟨[.chunk [0x1, 0x2, 0x3, 0x7E, 0x01, 0x00, 0x05, 0x80, 0x7E]], []⟩ =
    [[126, 1, 0, 5, 128, 126]] := by decide
example : framesAcc SpecialChars.default 4
    ⟨[.chunk [0x7E, 0x7E, 0x53, 0x30, 0x10, 0x22, 0x7E, 0x51, 0x52]], []⟩ =
    [[126, 83, 48, 16, 34, 126]] := by decide
example : framesAcc SpecialChars.default 4
    ⟨[.chunk [0x01, 0x50, 0x7E, 0x7E, 0x51, 0x53, 0x30, 0x10, 0x22, 0x7E]], []⟩ =
    [[126, 81, 83, 48, 16, 34, 126]] := by decide
example : framesAcc SpecialChars.default 6
    ⟨[.chunk [0x7E, 0x01, 0x00, 0x05, 0x80, 0x7E, 0x7E, 0x02, 0x00, 0x05, 0x80, 0x7E,
      0x7E, 0x03, 0x00, 0x05, 0x80, 0x7E]], []⟩ =
    [[126, 1, 0, 5, 128, 126], [126, 2, 0, 5, 128, 126], [126, 3, 0, 5, 128, 126]] := by decide
example : framesAcc SpecialChars.default 4 ⟨[.chunk []], []⟩ = [] := by decide
example : framesAcc SpecialChars.default 4
    ⟨[.chunk [0x05, 0x80, 0x7E, 0x1]], []⟩ = [] := by decide
example : framesAcc SpecialChars.default 4
    ⟨[.chunk [0x05, 0x80, 0x1]], []⟩ = [] := by decide
example : framesAcc SpecialChars.default 4
    ⟨[.chunk [0x05, 0x80, 0x1, 0x7E, 0x7E]], []⟩ = [] := by decide

/-! ## Helper lemmas about `Except.map` -/

theorem dupCheck_eq_false_iff (s : SpecialChars) :
    dupCheck s = false ↔ Distinct s := by
  simp only [dupCheck, Distinct, Bool.or_eq_false_iff, beq_eq_false_iff_ne, ne_eq]
  omega


theorem except_map_map {ε α β γ : Type} (f : α → β) (g : β → γ) (e : Except ε α) :
    (e.map f).map g = e.map fun x => g (f x) := by cases e <;> rfl

theorem except_map_ok_iff {ε α β : Type} (f : α → β) (e : Except ε α) (b : β) :
    e.map f = .ok b ↔ ∃ a, e = .ok a ∧ b = f a := by
  cases e with
  | error x => simp [Except.map]
  | ok a => simp [Except.map, eq_comm]

theorem except_map_error {ε α β : Type} (f : α → β) (x : ε) :
    (Except.error x : Except ε α).map f = .error x := rfl

/-! ## Step lemmas for `decodeLoop` -/

theorem decodeLoop_fesc_tfend (s : SpecialChars) (tl : List Nat) :
    decodeLoop s (s.fesc :: s.tfend :: tl) = (decodeLoop s tl).map (s.fend :: ·) := by
  simp [decodeLoop]

theorem decodeLoop_fesc_tfesc (s : SpecialChars) (h : s.tfesc ≠ s.tfend) (tl : List Nat) :
    decodeLoop s (s.fesc :: s.tfesc :: tl) = (decodeLoop s tl).map (s.fesc :: ·) := by
  simp [decodeLoop, h]

theorem decodeLoop_fesc_bad (s : SpecialChars) (b : Nat)
    (h1 : b ≠ s.tfend) (h2 : b ≠ s.tfesc) (tl : List Nat) :
    decodeLoop s (s.fesc :: b :: tl) = .error .MissingTradeChar := by
  simp [decodeLoop, h1, h2]

theorem decodeLoop_fesc_nil (s : SpecialChars) :
    decodeLoop s [s.fesc] = .error .MissingTradeChar := by
  simp [decodeLoop]

theorem decodeLoop_fend_nil (s : SpecialChars) (h : s.fend ≠ s.fesc) :
    decodeLoop s [s.fend] = .ok [] := by
  simp [decodeLoop, h]

theorem decodeLoop_fend_cons (s : SpecialChars) (h : s.fend ≠ s.fesc) (b : Nat) (tl : List Nat) :
    decodeLoop s (s.fend :: b :: tl) = .error .FendCharInData := by
  simp [decodeLoop, h]

theorem decodeLoop_other (s : SpecialChars) (v : Nat)
    (h1 : v ≠ s.fesc) (h2 : v ≠ s.fend) (tl : List Nat) :
    decodeLoop s (v :: tl) = (decodeLoop s tl).map (v :: ·) := by
  cases tl with
  | nil => simp [decodeLoop, h1, h2]
  | cons w tl2 => simp [decodeLoop, h1, h2]

/-! ## Structure lemmas for `escape` and `decodeLoop` -/

theorem escape_nil (s : SpecialChars) : escape s [] = [] := rfl

theorem escape_cons (s : SpecialChars) (b : Nat) (p : List Nat) :
    escape s (b :: p) = escapeByte s b ++ escape s p := rfl

theorem escapeByte_fesc (s : SpecialChars) : escapeByte s s.fesc = [s.fesc, s.tfesc] := by
  simp [escapeByte]

theorem escapeByte_fend (s : SpecialChars) (h : s.fend ≠ s.fesc) :
    escapeByte s s.fend = [s.fesc, s.tfend] := by
  simp [escapeByte, h]

theorem escapeByte_other (s : SpecialChars) (b : Nat) (h1 : b ≠ s.fesc) (h2 : b ≠ s.fend) :
    escapeByte s b = [b] := by
  simp [escapeByte, h1, h2]

/-- Scanning an escaped payload followed by anything just accumulates the
payload and continues with the remainder. -/
theorem decodeLoop_escape_append (s : SpecialChars) (hs : Distinct s)
    (p rest : List Nat) :
    decodeLoop s (escape s p ++ rest) = (decodeLoop s rest).map (p ++ ·) := by
  obtain ⟨h1, h2, h3, h4, h5, h6⟩ := hs
  induction p with
  | nil =>
    rw [escape_nil, List.nil_append]
    cases decodeLoop s rest <;> rfl
  | cons b p' ih =>
    by_cases hb1 : b = s.fesc
    · subst hb1
      rw [escape_cons, escapeByte_fesc, List.append_assoc, List.cons_append,
        List.cons_append, List.nil_append,
        decodeLoop_fesc_tfesc s (fun e => h6 e.symm), ih, except_map_map]
      cases decodeLoop s rest <;> rfl
    · by_cases hb2 : b = s.fend
      · subst hb2
        rw [escape_cons, escapeByte_fend s h1, List.append_assoc, List.cons_append,
          List.cons_append, List.nil_append,
          decodeLoop_fesc_tfend, ih, except_map_map]
        cases decodeLoop s rest <;> rfl
      · rw [escape_cons, escapeByte_other s b hb1 hb2, List.append_assoc,
          List.cons_append, List.nil_append,
          decodeLoop_other s b hb1 hb2, ih, except_map_map]
        cases decodeLoop s rest <;> rfl

/-- Any input accepted by the decode scan is exactly an escaped payload
followed by the closing delimiter. -/
theorem decodeLoop_ok_shape (s : SpecialChars) (hs : Distinct s) :
    ∀ (t l : List Nat), decodeLoop s l = .ok t → l = escape s t ++ [s.fend] := by
  obtain ⟨h1, h2, h3, h4, h5, h6⟩ := hs
  intro t
  induction t with
  | nil =>
    intro l hl
    match l with
    | [] => simp [decodeLoop] at hl
    | v :: tl =>
      by_cases hv1 : v = s.fesc
      · subst hv1
        match tl with
        | [] => rw [decodeLoop_fesc_nil] at hl; cases hl
        | w :: tl2 =>
          by_cases hw1 : w = s.tfend
          · subst hw1
            rw [decodeLoop_fesc_tfend, except_map_ok_iff] at hl
            obtain ⟨a, -, ha⟩ := hl
            cases ha
          · by_cases hw2 : w = s.tfesc
            · subst hw2
              rw [decodeLoop_fesc_tfesc s (fun e => h6 e.symm), except_map_ok_iff] at hl
              obtain ⟨a, -, ha⟩ := hl
              cases ha
            · rw [decodeLoop_fesc_bad s w hw1 hw2] at hl; cases hl
      · by_cases hv2 : v = s.fend
        · subst hv2
          match tl with
          | [] => rw [escape_nil, List.nil_append]
          | b :: tl2 => rw [decodeLoop_fend_cons s h1] at hl; cases hl
        · rw [decodeLoop_other s v hv1 hv2, except_map_ok_iff] at hl
          obtain ⟨a, -, ha⟩ := hl
          cases ha
  | cons c t' ih =>
    intro l hl
    match l with
    | [] => simp [decodeLoop] at hl
    | v :: tl =>
      by_cases hv1 : v = s.fesc
      · subst hv1
        match tl with
        | [] => rw [decodeLoop_fesc_nil] at hl; cases hl
        | w :: tl2 =>
          by_cases hw1 : w = s.tfend
          · subst hw1
            rw [decodeLoop_fesc_tfend, except_map_ok_iff] at hl
            obtain ⟨a, ha, hca⟩ := hl
            obtain ⟨hc, ht'⟩ := List.cons_eq_cons.mp hca
            subst hc; subst ht'
            rw [ih tl2 ha, escape_cons, escapeByte_fend s h1, List.append_assoc,
              List.cons_append, List.cons_append, List.nil_append]
          · by_cases hw2 : w = s.tfesc
            · subst hw2
              rw [decodeLoop_fesc_tfesc s (fun e => h6 e.symm), except_map_ok_iff] at hl
              obtain ⟨a, ha, hca⟩ := hl
              obtain ⟨hc, ht'⟩ := List.cons_eq_cons.mp hca
              subst hc; subst ht'
              rw [ih tl2 ha, escape_cons, escapeByte_fesc, List.append_assoc,
                List.cons_append, List.cons_append, List.nil_append]
            · rw [decodeLoop_fesc_bad s w hw1 hw2] at hl; cases hl
      · by_cases hv2 : v = s.fend
        · subst hv2
          match tl with
          | [] => rw [decodeLoop_fend_nil s h1] at hl; cases hl
          | b :: tl2 => rw [decodeLoop_fend_cons s h1] at hl; cases hl
        · rw [decodeLoop_other s v hv1 hv2, except_map_ok_iff] at hl
          obtain ⟨a, ha, hca⟩ := hl
          obtain ⟨hc, ht'⟩ := List.cons_eq_cons.mp hca
          subst ht'
          rw [hc, ih tl ha, escape_cons, escapeByte_other s v hv1 hv2, List.append_assoc,
            List.cons_append, List.nil_append]

/-! ## Helper lemmas for `decodeSliceLoop` -/

theorem escape_length (s : SpecialChars) (p : List Nat) :
    (escape s p).length = p.length + escCount s p := by
  induction p with
  | nil => rfl
  | cons b tl ih =>
    rw [escape_cons, List.length_append, ih, escCount]
    have hb : (escapeByte s b).length =
        1 + (if b = s.fesc then 1 else if b = s.fend then 1 else 0) := by
      unfold escapeByte
      split
      · rfl
      · split <;> rfl
    rw [hb, List.length_cons]
    omega

theorem escCount_le (s : SpecialChars) (p : List Nat) : escCount s p ≤ p.length := by
  induction p with
  | nil => exact Nat.le_refl 0
  | cons b tl ih =>
    rw [escCount]
    split <;> [skip; split] <;> simp <;> omega

theorem splice_nil (buf : List Nat) (n : Nat) : splice buf n [] = buf := by
  simp [splice]

theorem splice_cons (b : Nat) (tl : List Nat) (n : Nat) (p : List Nat) :
    splice (b :: tl) (n + 1) p = b :: splice tl n p := by
  unfold splice
  have e : n + 1 + p.length = (n + p.length) + 1 := by omega
  rw [e, List.drop_succ_cons, List.take_succ_cons, List.cons_append, List.cons_append]

theorem splice_set (buf : List Nat) (n : Nat) (x : Nat) (p : List Nat) (h : n < buf.length) :
    splice (buf.set n x) (n + 1) p = splice buf n (x :: p) := by
  induction buf generalizing n with
  | nil => simp at h
  | cons b tl ih =>
    cases n with
    | zero =>
      rw [List.set_cons_zero]
      rw [show (1 : Nat) = 0 + 1 from rfl, splice_cons]
      unfold splice
      simp [List.drop_succ_cons]
    | succ m =>
      rw [List.set_cons_succ, splice_cons, splice_cons,
        ih m (by simpa using Nat.lt_of_succ_lt_succ h)]

-- Step lemmas, one per branch of the `decode_slice` loop body.

theorem sliceLoop_lf1_tfesc (s : SpecialChars) (total : Nat) (tl : List Nat)
    (idx swap sync : Nat) (buf : List Nat) (hge : ¬ idx < swap + 1 + 1) :
    decodeSliceLoop s total (s.tfesc :: tl) idx swap 1 sync buf =
    decodeSliceLoop s total tl (idx + 1) (swap + 1) 0 sync
      (buf.set (idx - (swap + 1) - 1) s.fesc) := by
  simp [decodeSliceLoop, hge]

theorem sliceLoop_lf1_tfend (s : SpecialChars) (h : s.tfend ≠ s.tfesc) (total : Nat)
    (tl : List Nat) (idx swap sync : Nat) (buf : List Nat) (hge : ¬ idx < swap + 1 + 1) :
    decodeSliceLoop s total (s.tfend :: tl) idx swap 1 sync buf =
    decodeSliceLoop s total tl (idx + 1) (swap + 1) 0 sync
      (buf.set (idx - (swap + 1) - 1) s.fend) := by
  simp [decodeSliceLoop, h, hge]

theorem sliceLoop_lf1_bad (s : SpecialChars) (b : Nat) (hb1 : b ≠ s.tfesc)
    (hb2 : b ≠ s.tfend) (total : Nat) (tl : List Nat) (idx swap sync : Nat)
    (buf : List Nat) :
    decodeSliceLoop s total (b :: tl) idx swap 1 sync buf =
    (.err .MissingTradeChar, buf) := by
  simp [decodeSliceLoop, hb1, hb2]

theorem sliceLoop_fend_open (s : SpecialChars) (total : Nat) (tl : List Nat)
    (idx swap : Nat) (buf : List Nat) :
    decodeSliceLoop s total (s.fend :: tl) idx swap 0 0 buf =
    decodeSliceLoop s total tl (idx + 1) swap 0 1 buf := by
  simp [decodeSliceLoop]

theorem sliceLoop_fend_closing_ok (s : SpecialChars) (total : Nat) (tl : List Nat)
    (idx swap : Nat) (buf : List Nat) (hlt : ¬ idx + 1 < total) (hpan : ¬ idx < swap + 1) :
    decodeSliceLoop s total (s.fend :: tl) idx swap 0 1 buf =
    (.ok (buf.take (idx - swap - 1)), buf) := by
  simp [decodeSliceLoop, hlt, hpan]

theorem sliceLoop_fend_closing_err (s : SpecialChars) (total : Nat) (tl : List Nat)
    (idx swap : Nat) (buf : List Nat) (hlt : idx + 1 < total) :
    decodeSliceLoop s total (s.fend :: tl) idx swap 0 1 buf =
    (.err .FendCharInData, buf) := by
  simp [decodeSliceLoop, hlt]

theorem sliceLoop_fesc (s : SpecialChars) (h : s.fesc ≠ s.fend) (total : Nat)
    (tl : List Nat) (idx swap sync : Nat) (buf : List Nat) :
    decodeSliceLoop s total (s.fesc :: tl) idx swap 0 sync buf =
    decodeSliceLoop s total tl (idx + 1) swap 1 sync buf := by
  simp [decodeSliceLoop, h]

theorem sliceLoop_other_synced (s : SpecialChars) (b : Nat) (hb1 : b ≠ s.fend)
    (hb2 : b ≠ s.fesc) (total : Nat) (tl : List Nat) (idx swap : Nat) (buf : List Nat)
    (hpan : ¬ idx < swap + 1) :
    decodeSliceLoop s total (b :: tl) idx swap 0 1 buf =
    decodeSliceLoop s total tl (idx + 1) swap 0 1 (buf.set (idx - swap - 1) b) := by
  simp [decodeSliceLoop, hb1, hb2, hpan]

theorem sliceLoop_other_seek (s : SpecialChars) (b : Nat) (hb1 : b ≠ s.fend)
    (hb2 : b ≠ s.fesc) (total : Nat) (tl : List Nat) (idx swap : Nat) (buf : List Nat) :
    decodeSliceLoop s total (b :: tl) idx swap 0 0 buf =
    decodeSliceLoop s total tl (idx + 1) swap 0 0 buf := by
  simp [decodeSliceLoop, hb1, hb2]

/-- Before sync, bytes that are neither `fend` nor `fesc` are passed over
without any state change other than the index. -/
theorem sliceLoop_seek (s : SpecialChars) (total : Nat) (g rest : List Nat)
    (idx swap : Nat) (buf : List Nat)
    (hg : ∀ b ∈ g, b ≠ s.fend ∧ b ≠ s.fesc) :
    decodeSliceLoop s total (g ++ rest) idx swap 0 0 buf =
    decodeSliceLoop s total rest (idx + g.length) swap 0 0 buf := by
  induction g generalizing idx with
  | nil => simp
  | cons b g' ih =>
    obtain ⟨hb1, hb2⟩ := hg b (List.mem_cons_self b g')
    rw [List.cons_append, sliceLoop_other_seek s b hb1 hb2,
      ih (idx + 1) (fun c hc => hg c (List.mem_cons_of_mem b hc))]
    have e : idx + 1 + g'.length = idx + (b :: g').length := by
      rw [List.length_cons]; omega
    rw [e]

/-- Processing an escaped payload from a synced, clean state steps the
index past it, counts its escape pairs into `swap`, and writes the payload
into the buffer at consecutive positions starting at `idx - swap - 1`. -/
theorem sliceLoop_escape_step (s : SpecialChars) (hs : Distinct s) (total : Nat)
    (rest : List Nat) :
    ∀ (p : List Nat) (idx swap : Nat) (buf : List Nat),
      swap + 1 ≤ idx → idx + (escape s p).length ≤ buf.length →
      decodeSliceLoop s total (escape s p ++ rest) idx swap 0 1 buf =
      decodeSliceLoop s total rest (idx + (escape s p).length) (swap + escCount s p) 0 1
        (splice buf (idx - swap - 1) p) := by
  obtain ⟨h1, h2, h3, h4, h5, h6⟩ := hs
  intro p
  induction p with
  | nil =>
    intro idx swap buf hidx hbuf
    rw [escape_nil, List.nil_append, splice_nil]
    rfl
  | cons b p' ih =>
    intro idx swap buf hidx hbuf
    have hn : idx - swap - 1 < buf.length := by omega
    by_cases hb1 : b = s.fesc
    · subst hb1
      rw [escape_cons, escapeByte_fesc] at hbuf ⊢
      rw [List.append_assoc, List.cons_append, List.cons_append, List.nil_append,
        sliceLoop_fesc s (fun e => h1 e.symm),
        sliceLoop_lf1_tfesc s total _ _ _ _ _ (by omega)]
      have e1 : idx + 1 - (swap + 1) - 1 = idx - swap - 1 := by omega
      rw [e1]
      rw [ih (idx + 2) (swap + 1) (buf.set (idx - swap - 1) s.fesc) (by omega)
        (by rw [List.length_set]; rw [List.length_append] at hbuf; simp at hbuf; omega)]
      have e2 : idx + 2 - (swap + 1) - 1 = (idx - swap - 1) + 1 := by omega
      rw [e2, splice_set buf _ s.fesc p' hn]
      have e3 : idx + 2 + (escape s p').length =
          idx + ([s.fesc, s.tfesc] ++ escape s p').length := by
        rw [List.length_append]; simp; omega
      have e4 : swap + 1 + escCount s p' = swap + escCount s (s.fesc :: p') := by
        rw [escCount]; simp; omega
      rw [e3, e4]
    · by_cases hb2 : b = s.fend
      · subst hb2
        rw [escape_cons, escapeByte_fend s h1] at hbuf ⊢
        rw [List.append_assoc, List.cons_append, List.cons_append, List.nil_append,
          sliceLoop_fesc s (fun e => h1 e.symm),
          sliceLoop_lf1_tfend s h6 total _ _ _ _ _ (by omega)]
        have e1 : idx + 1 - (swap + 1) - 1 = idx - swap - 1 := by omega
        rw [e1]
        rw [ih (idx + 2) (swap + 1) (buf.set (idx - swap - 1) s.fend) (by omega)
          (by rw [List.length_set]; rw [List.length_append] at hbuf; simp at hbuf; omega)]
        have e2 : idx + 2 - (swap + 1) - 1 = (idx - swap - 1) + 1 := by omega
        rw [e2, splice_set buf _ s.fend p' hn]
        have e3 : idx + 2 + (escape s p').length =
            idx + ([s.fesc, s.tfend] ++ escape s p').length := by
          rw [List.length_append]; simp; omega
        have e4 : swap + 1 + escCount s p' = swap + escCount s (s.fend :: p') := by
          rw [escCount, if_neg h1]
          simp; omega
        rw [e3, e4]
      · rw [escape_cons, escapeByte_other s b hb1 hb2] at hbuf ⊢
        rw [List.append_assoc, List.cons_append, List.nil_append,
          sliceLoop_other_synced s b hb2 hb1 total _ _ _ _ (by omega)]
        rw [ih (idx + 1) swap (buf.set (idx - swap - 1) b) (by omega)
          (by rw [List.length_set]; rw [List.length_append] at hbuf; simp at hbuf; omega)]
        have e2 : idx + 1 - swap - 1 = (idx - swap - 1) + 1 := by omega
        rw [e2, splice_set buf _ b p' hn]
        have e3 : idx + 1 + (escape s p').length = idx + ([b] ++ escape s p').length := by
          rw [List.length_append]; simp; omega
        have e4 : swap + escCount s p' = swap + escCount s (b :: p') := by
          rw [escCount, if_neg hb1, if_neg hb2]; omega
        rw [e3, e4]

/-! ## Helper lemmas for `scanLoop` and `readFrame` -/

theorem append_singleton_drop (l : List Nat) (a : Nat) :
    (l ++ [a]).drop ((l ++ [a]).length - 1) = [a] := by
  have e : (l ++ [a]).length - 1 = l.length := by
    rw [List.length_append]; simp
  rw [e, List.drop_left]

theorem scanLoop_fend_inframe (s : SpecialChars) (data tl frame : List Nat) (bc : Nat) :
    scanLoop s data (s.fend :: tl) frame bc true = (true, frame ++ [s.fend], bc + 1) := by
  simp [scanLoop]

theorem scanLoop_other (s : SpecialChars) (data : List Nat) (b : Nat) (tl frame : List Nat)
    (bc : Nat) (inFrame : Bool) (hb : b ≠ s.fend) :
    scanLoop s data (b :: tl) frame bc inFrame =
    scanLoop s data tl (frame ++ [b]) (bc + 1) inFrame := by
  simp [scanLoop, hb]

theorem scanLoop_fend_seek_skip (s : SpecialChars) (data tl frame : List Nat) (bc : Nat)
    (nb : Nat) (hg : data[frame.length + 1]? = some nb) (hnb : nb = s.fend) :
    scanLoop s data (s.fend :: tl) frame bc false =
    scanLoop s data tl (frame ++ [s.fend]) (bc + 1) false := by
  simp [scanLoop, hg, hnb]

theorem scanLoop_fend_seek_sync_some (s : SpecialChars) (data tl frame : List Nat) (bc : Nat)
    (nb : Nat) (hg : data[frame.length + 1]? = some nb) (hnb : nb ≠ s.fend) :
    scanLoop s data (s.fend :: tl) frame bc false =
    scanLoop s data tl [s.fend] (bc + 1) true := by
  simp [scanLoop, hg, hnb]

theorem scanLoop_fend_seek_sync_none (s : SpecialChars) (data tl frame : List Nat) (bc : Nat)
    (hg : data[frame.length + 1]? = none) :
    scanLoop s data (s.fend :: tl) frame bc false =
    scanLoop s data tl [s.fend] (bc + 1) true := by
  simp [scanLoop, hg]

/-- Any frame on which the scan reports completion is a delimiter, a
delimiter-free middle, and a closing delimiter. -/
theorem scanLoop_true_shape (s : SpecialChars) (data : List Nat) :
    ∀ (rem frame : List Nat) (bc : Nat) (inFrame : Bool) (f : List Nat) (bc2 : Nat),
      (inFrame = true → ∃ mid, frame = s.fend :: mid ∧ s.fend ∉ mid) →
      scanLoop s data rem frame bc inFrame = (true, f, bc2) →
      ∃ mid, f = s.fend :: (mid ++ [s.fend]) ∧ s.fend ∉ mid := by
  intro rem
  induction rem with
  | nil =>
    intro frame bc inFrame f bc2 _ h
    simp [scanLoop] at h
  | cons b tl ih =>
    intro frame bc inFrame f bc2 hinv h
    by_cases hb : b = s.fend
    · subst hb
      cases inFrame with
      | true =>
        rw [scanLoop_fend_inframe] at h
        obtain ⟨mid, hfr, hmem⟩ := hinv rfl
        have hf : frame ++ [s.fend] = f := congrArg (fun x => x.2.1) h
        subst hf
        exact ⟨mid, by rw [hfr, List.cons_append], hmem⟩
      | false =>
        rcases hg : data[frame.length + 1]? with _ | nb
        · rw [scanLoop_fend_seek_sync_none s data tl frame bc hg] at h
          exact ih [s.fend] (bc + 1) true f bc2 (fun _ => ⟨[], rfl, by simp⟩) h
        · by_cases hnb : nb = s.fend
          · rw [scanLoop_fend_seek_skip s data tl frame bc nb hg hnb] at h
            exact ih (frame ++ [s.fend]) (bc + 1) false f bc2 (fun hc => nomatch hc) h
          · rw [scanLoop_fend_seek_sync_some s data tl frame bc nb hg hnb] at h
            exact ih [s.fend] (bc + 1) true f bc2 (fun _ => ⟨[], rfl, by simp⟩) h
    · rw [scanLoop_other s data b tl frame bc inFrame hb] at h
      apply ih _ _ _ _ _ ?_ h
      intro hif
      obtain ⟨mid, hfr, hmem⟩ := hinv hif
      refine ⟨mid ++ [b], by rw [hfr, List.cons_append], ?_⟩
      intro hmm
      rcases List.mem_append.mp hmm with hm1 | hm2
      · exact hmem hm1
      · rw [List.mem_singleton] at hm2
        exact hb hm2.symm

theorem readScan_spec (s : SpecialChars) (rest chunk : List Nat) (full : Bool)
    (fr : List Nat) (bc : Nat)
    (h : scanLoop s (rest ++ chunk) (rest ++ chunk) [] 0 false = (full, fr, bc)) :
    readScan s rest chunk =
      (if full then some fr else none,
       (if full then [] else rest) ++ (rest ++ chunk).drop bc) := by
  simp only [readScan, h]

/-- Every frame that `read_frame` returns is a delimiter, a
delimiter-free middle, and a closing delimiter. -/
theorem readFrame_some_shape (s : SpecialChars) (st : RState) (f : List Nat) (st2 : RState)
    (h : readFrame s st = (some f, st2)) :
    ∃ mid, f = s.fend :: (mid ++ [s.fend]) ∧ s.fend ∉ mid := by
  unfold readFrame at h
  by_cases hc : ((chunkOf st.src).isEmpty && st.rest.isEmpty) = true
  · rw [if_pos hc] at h
    simp at h
  · rw [if_neg hc] at h
    rcases hscan : scanLoop s (st.rest ++ chunkOf st.src) (st.rest ++ chunkOf st.src)
      [] 0 false with ⟨full, fr, bc⟩
    rw [readScan_spec s _ _ full fr bc hscan] at h
    cases full with
    | false => simp at h
    | true =>
      simp only [if_true, Prod.mk.injEq, Option.some.injEq] at h
      obtain ⟨hf, -⟩ := h
      subst hf
      exact scanLoop_true_shape s (st.rest ++ chunkOf st.src) (st.rest ++ chunkOf st.src)
        [] 0 false fr bc (fun hc2 => nomatch hc2) hscan

/-! ## Unfolding lemmas for the top-level entry points -/

theorem sliceLoop_nil (s : SpecialChars) (total idx swap lf sync : Nat) (buf : List Nat) :
    decodeSliceLoop s total [] idx swap lf sync buf = (.err .MissingFinalFend, buf) := rfl

theorem encode_eq_of_distinct (p : List Nat) (s : SpecialChars) (hd : dupCheck s = false) :
    encode p s = .ok (s.fend :: (escape s p ++ [s.fend])) := by
  unfold encode
  rw [hd]
  rfl

theorem decode_eq_of_distinct (input : List Nat) (s : SpecialChars) (hd : dupCheck s = false)
    (tl : List Nat) (hin : input = s.fend :: tl) :
    decode input s = decodeLoop s tl := by
  subst hin
  unfold decode
  rw [hd]
  simp

theorem decodeSlice_eq_of_distinct (input : List Nat) (s : SpecialChars)
    (hd : dupCheck s = false) :
    decodeSlice input s = decodeSliceLoop s input.length input 0 0 0 0 input := by
  unfold decodeSlice
  rw [hd]
  rfl

theorem decode_ok_elim (s : SpecialChars) (input y : List Nat)
    (h : decode input s = .ok y) :
    dupCheck s = false ∧ ∃ tl, input = s.fend :: tl ∧ decodeLoop s tl = .ok y := by
  unfold decode at h
  by_cases hd : dupCheck s = true
  · rw [if_pos hd] at h
    cases h
  · rw [if_neg hd] at h
    rw [Bool.not_eq_true] at hd
    refine ⟨hd, ?_⟩
    cases input with
    | nil =>
      change Except.error HDLCError.MissingFirstFend = Except.ok y at h
      cases h
    | cons b tl =>
      change (if b = s.fend then decodeLoop s tl else .error .MissingFirstFend) = .ok y at h
      by_cases hb : b = s.fend
      · rw [if_pos hb] at h
        exact ⟨tl, by rw [hb], h⟩
      · rw [if_neg hb] at h
        cases h

/-! ## Claim theorems -/

/-- **C1** (code evaluation): a `read_frame` call that scans its whole
data (the single byte `0x7E`, an opening delimiter with no terminator)
returns no frame, but afterwards the pending buffer `rest` is empty —
the scanned byte is dropped, not preserved as the claim states. -/
theorem C1_pending_bytes_dropped :
    readFrame SpecialChars.default ⟨[.chunk [126]], []⟩ = (none, ⟨[], []⟩) ∧
    ([] : List Nat) ≠ [126] := by decide

/-- **C2** (code evaluation): the bytes `[7E 01 7E]` delivered in a single
read produce one frame, but delivered as `[7E]` then `[01 7E]` produce no
frames at all — reassembly is not invariant under chunking, because bytes
read in a call that completes no frame are dropped. -/
theorem C2_chunking_changes_frames :
    framesAcc SpecialChars.default 4 ⟨[.chunk [126, 1, 126]], []⟩ = [[126, 1, 126]] ∧
    framesAcc SpecialChars.default 4 ⟨[.chunk [126], .chunk [1, 126]], []⟩ = [] ∧
    [126] ++ [1, 126] = [126, 1, 126] := by decide

/-- **C3**: for every payload and pairwise-distinct `SpecialChars`,
`encode` succeeds and `decode` of its output returns the payload. -/
theorem C3_encode_decode_roundtrip (p : List Nat) (s : SpecialChars) (hs : Distinct s) :
    ∃ e, encode p s = .ok e ∧ decode e s = .ok p := by
  have hd : dupCheck s = false := (dupCheck_eq_false_iff s).mpr hs
  refine ⟨_, encode_eq_of_distinct p s hd, ?_⟩
  rw [decode_eq_of_distinct _ s hd (escape s p ++ [s.fend]) rfl,
    decodeLoop_escape_append s hs p [s.fend], decodeLoop_fend_nil s hs.1]
  simp [Except.map]

/-- **C3** witness at a concrete payload containing both special bytes. -/
theorem C3_roundtrip_witness :
    ∃ e, encode [1, 126, 125] SpecialChars.default = .ok e ∧
      decode e SpecialChars.default = .ok [1, 126, 125] :=
  C3_encode_decode_roundtrip [1, 126, 125] SpecialChars.default (by decide)

/-- **C4**: whenever `decode` and `decode_slice` both succeed on the same
input under a pairwise-distinct `SpecialChars`, their results are
byte-for-byte identical. -/
theorem C4_decode_decodeSlice_agree (s : SpecialChars) (input y z : List Nat)
    (hs : Distinct s) (hdec : decode input s = .ok y)
    (hslice : (decodeSlice input s).1 = DSOut.ok z) : y = z := by
  have hd : dupCheck s = false := (dupCheck_eq_false_iff s).mpr hs
  obtain ⟨-, tl, hin, hloop⟩ := decode_ok_elim s input y hdec
  have hshape := decodeLoop_ok_shape s hs y tl hloop
  subst hin
  subst hshape
  rw [decodeSlice_eq_of_distinct _ s hd] at hslice
  rw [sliceLoop_fend_open s] at hslice
  have hlen : (s.fend :: (escape s y ++ [s.fend])).length = (escape s y).length + 2 := by
    simp
  rw [sliceLoop_escape_step s hs (s.fend :: (escape s y ++ [s.fend])).length [s.fend] y
    (0 + 1) 0 _ (by omega) (by rw [hlen]; omega)] at hslice
  rw [sliceLoop_fend_closing_ok s _ _ _ _ _
    (by rw [hlen]; omega)
    (by rw [escape_length]; omega)] at hslice
  have e1 : (0 : Nat) + 1 - 0 - 1 = 0 := rfl
  have e2 : 0 + 1 + (escape s y).length - (0 + escCount s y) - 1 = y.length := by
    rw [escape_length]; omega
  rw [e1, e2] at hslice
  have e3 : splice (s.fend :: (escape s y ++ [s.fend])) 0 y =
      y ++ (s.fend :: (escape s y ++ [s.fend])).drop (0 + y.length) := by
    simp [splice]
  rw [e3, List.take_left] at hslice
  change DSOut.ok y = DSOut.ok z at hslice
  cases hslice
  rfl

/-- **C4** witness: on the frame `[7E 01 7E]` both decoders yield `[01]`. -/
theorem C4_agreement_witness :
    decode [126, 1, 126] SpecialChars.default = .ok [1] ∧ ([1] : List Nat) = [1] :=
  ⟨by rfl, C4_decode_decodeSlice_agree SpecialChars.default [126, 1, 126] [1] [1]
    (by decide) (by rfl) (by decide)⟩

/-- **C5** counterexample: on garbage byte `0xAA` before the frame
`[7E 01 7E]`, `decode_slice` succeeds but returns `[AA 01]`, not the
frame's payload `[01]` — the garbage byte is in the result. -/
theorem C5_garbage_cex :
    (decodeSlice [170, 126, 1, 126] SpecialChars.default).1 = DSOut.ok [170, 1] ∧
    DSOut.ok [170, 1] ≠ DSOut.ok [1] := by decide

/-- **C5** amended: with a garbage prefix (no special bytes) before a
well-formed frame, `decode_slice` succeeds but returns the garbage prefix
followed by the frame's payload — the garbage bytes are skipped by the
scan yet remain in the returned prefix of the buffer. -/
theorem C5_garbage_amended (s : SpecialChars) (g p : List Nat) (hs : Distinct s)
    (hg0 : g ≠ [])
    (hg : ∀ b ∈ g, b ≠ s.fend ∧ b ≠ s.fesc ∧ b ≠ s.tfend ∧ b ≠ s.tfesc) :
    (decodeSlice (g ++ (s.fend :: (escape s p ++ [s.fend]))) s).1 =
      DSOut.ok (g ++ p) := by
  have hd : dupCheck s = false := (dupCheck_eq_false_iff s).mpr hs
  rw [decodeSlice_eq_of_distinct _ s hd]
  have hlen : (g ++ (s.fend :: (escape s p ++ [s.fend]))).length =
      g.length + (escape s p).length + 2 := by
    simp; omega
  rw [sliceLoop_seek s _ g _ 0 0 _ (fun b hb => ⟨(hg b hb).1, (hg b hb).2.1⟩)]
  rw [sliceLoop_fend_open s]
  rw [sliceLoop_escape_step s hs _ [s.fend] p (0 + g.length + 1) 0 _
    (by omega) (by rw [hlen]; omega)]
  rw [sliceLoop_fend_closing_ok s _ _ _ _ _
    (by rw [hlen]; omega)
    (by rw [escape_length]; omega)]
  have e1 : 0 + g.length + 1 - 0 - 1 = g.length := by omega
  have e2 : 0 + g.length + 1 + (escape s p).length - (0 + escCount s p) - 1 =
      g.length + p.length := by
    rw [escape_length]; omega
  rw [e1, e2]
  have e3 : splice (g ++ (s.fend :: (escape s p ++ [s.fend]))) g.length p =
      (g ++ p) ++ (g ++ (s.fend :: (escape s p ++ [s.fend]))).drop (g.length + p.length) := by
    unfold splice
    rw [List.take_left, List.append_assoc]
  rw [e3]
  have e4 : g.length + p.length = (g ++ p).length := (List.length_append g p).symm
  rw [e4, List.take_left]

/-- **C5** witness: garbage `0xAA` before the frame for payload `[01]`. -/
theorem C5_garbage_witness :
    (decodeSlice [170, 126, 1, 126] SpecialChars.default).1 = DSOut.ok [170, 1] :=
  C5_garbage_amended SpecialChars.default [170] [1] (by decide) (by decide) (by decide)

/-- **C6** counterexample: when the input ends immediately after an escape
byte, `decode_slice` fails with `MissingFinalFend` (the loop simply runs
out of input with `last_was_fesc` set), not with `MissingTradeChar` as the
claim states for both decoders. -/
theorem C6_trade_cex :
    (decodeSlice [126, 125] SpecialChars.default).1 = DSOut.err .MissingFinalFend ∧
    HDLCError.MissingFinalFend ≠ HDLCError.MissingTradeChar := by decide

/-- **C6** amended: under a pairwise-distinct `SpecialChars`, `decode`
fails with `MissingTradeChar` both when an escape byte is followed by an
invalid substitute and when the input ends right after the escape;
`decode_slice` fails with `MissingTradeChar` in the invalid-substitute
case, but with `MissingFinalFend` when the input ends right after the
escape byte. -/
theorem C6_missing_trade_amended (s : SpecialChars) (p : List Nat) (hs : Distinct s) :
    (decode (s.fend :: (escape s p ++ [s.fesc])) s = .error .MissingTradeChar) ∧
    (∀ b tl, b ≠ s.tfend → b ≠ s.tfesc →
      decode (s.fend :: (escape s p ++ (s.fesc :: b :: tl))) s =
        .error .MissingTradeChar) ∧
    (∀ b tl, b ≠ s.tfend → b ≠ s.tfesc →
      (decodeSlice (s.fend :: (escape s p ++ (s.fesc :: b :: tl))) s).1 =
        DSOut.err .MissingTradeChar) ∧
    ((decodeSlice (s.fend :: (escape s p ++ [s.fesc])) s).1 =
      DSOut.err .MissingFinalFend) := by
  have hd : dupCheck s = false := (dupCheck_eq_false_iff s).mpr hs
  refine ⟨?_, ?_, ?_, ?_⟩
  · rw [decode_eq_of_distinct _ s hd _ rfl, decodeLoop_escape_append s hs p [s.fesc],
      decodeLoop_fesc_nil s]
    rfl
  · intro b tl hb1 hb2
    rw [decode_eq_of_distinct _ s hd _ rfl,
      decodeLoop_escape_append s hs p (s.fesc :: b :: tl),
      decodeLoop_fesc_bad s b hb1 hb2]
    rfl
  · intro b tl hb1 hb2
    rw [decodeSlice_eq_of_distinct _ s hd]
    have hlen : (s.fend :: (escape s p ++ (s.fesc :: b :: tl))).length =
        (escape s p).length + 3 + tl.length := by
      simp; omega
    rw [sliceLoop_fend_open s,
      sliceLoop_escape_step s hs _ (s.fesc :: b :: tl) p (0 + 1) 0 _
        (by omega) (by rw [hlen]; omega),
      sliceLoop_fesc s (fun e => hs.1 e.symm),
      sliceLoop_lf1_bad s b hb2 hb1]
  · rw [decodeSlice_eq_of_distinct _ s hd]
    have hlen : (s.fend :: (escape s p ++ [s.fesc])).length =
        (escape s p).length + 2 := by
      simp
    rw [sliceLoop_fend_open s,
      sliceLoop_escape_step s hs _ [s.fesc] p (0 + 1) 0 _
        (by omega) (by rw [hlen]; omega),
      sliceLoop_fesc s (fun e => hs.1 e.symm),
      sliceLoop_nil s]

/-- **C6** witness: payload `[01]`, bad substitute `0x00`, and the
truncated-escape input, under the default character set. -/
theorem C6_missing_trade_witness :
    decode [126, 1, 125] SpecialChars.default = .error .MissingTradeChar ∧
    decode [126, 1, 125, 0] SpecialChars.default = .error .MissingTradeChar ∧
    (decodeSlice [126, 1, 125, 0] SpecialChars.default).1 = DSOut.err .MissingTradeChar ∧
    (decodeSlice [126, 1, 125] SpecialChars.default).1 = DSOut.err .MissingFinalFend := by
  have h := C6_missing_trade_amended SpecialChars.default [1] (by decide)
  exact ⟨h.1, h.2.1 0 [] (by decide) (by decide), h.2.2.1 0 [] (by decide) (by decide),
    h.2.2.2⟩

/-- **C7**: under a pairwise-distinct `SpecialChars`, `encode` succeeds,
its output length lies in `[len+2, 2*len+2]`, and the output starts and
ends with the delimiter. -/
theorem C7_encode_bounds (p : List Nat) (s : SpecialChars) (hs : Distinct s) :
    ∃ e, encode p s = .ok e ∧ p.length + 2 ≤ e.length ∧ e.length ≤ 2 * p.length + 2 ∧
      e.head? = some s.fend ∧ e.getLast? = some s.fend := by
  have hd : dupCheck s = false := (dupCheck_eq_false_iff s).mpr hs
  have h1 := escape_length s p
  have h2 := escCount_le s p
  refine ⟨_, encode_eq_of_distinct p s hd, ?_, ?_, rfl, ?_⟩
  · simp only [List.length_cons, List.length_append, List.length_singleton, List.length_nil]
    omega
  · simp only [List.length_cons, List.length_append, List.length_singleton, List.length_nil]
    omega
  · rw [← List.cons_append, List.getLast?_concat]

/-- **C7** witness at a payload containing both special bytes. -/
theorem C7_bounds_witness :
    ∃ e, encode [1, 126, 125] SpecialChars.default = .ok e ∧
      ([1, 126, 125] : List Nat).length + 2 ≤ e.length ∧
      e.length ≤ 2 * ([1, 126, 125] : List Nat).length + 2 ∧
      e.head? = some SpecialChars.default.fend ∧
      e.getLast? = some SpecialChars.default.fend :=
  C7_encode_bounds [1, 126, 125] SpecialChars.default (by decide)

/-- **C8**: with duplicated special characters, `encode`, `decode` and
`decode_slice` all fail with `DuplicateSpecialChar` on every input, and
`decode_slice` leaves the caller's buffer unchanged. -/
theorem C8_duplicate_chars (s : SpecialChars) (input : List Nat) (hs : ¬ Distinct s) :
    encode input s = .error .DuplicateSpecialChar ∧
    decode input s = .error .DuplicateSpecialChar ∧
    decodeSlice input s = (DSOut.err .DuplicateSpecialChar, input) := by
  have hd : dupCheck s = true := by
    cases hdc : dupCheck s with
    | false => exact absurd ((dupCheck_eq_false_iff s).mp hdc) hs
    | true => rfl
  refine ⟨?_, ?_, ?_⟩ <;> simp [encode, decode, decodeSlice, hd]

/-- **C8** witness: `tfend = tfesc = 0x5D` (the set of Scenario 6). -/
theorem C8_duplicate_witness :
    encode [1, 126] (SpecialChars.mk 126 125 93 93) = .error .DuplicateSpecialChar ∧
    decode [1, 126] (SpecialChars.mk 126 125 93 93) = .error .DuplicateSpecialChar ∧
    decodeSlice [1, 126] (SpecialChars.mk 126 125 93 93) =
      (DSOut.err .DuplicateSpecialChar, [1, 126]) :=
  C8_duplicate_chars (SpecialChars.mk 126 125 93 93) [1, 126] (by decide)

/-- **C9**: every frame returned by `read_frame` has length at least 2,
begins and ends with the delimiter, and contains no delimiter strictly
between its first and last positions. -/
theorem C9_returned_frame_delimited (s : SpecialChars) (st : RState) (f : List Nat)
    (st2 : RState) (h : readFrame s st = (some f, st2)) :
    2 ≤ f.length ∧ f.head? = some s.fend ∧ f.getLast? = some s.fend ∧
    ∀ i, 0 < i → i + 1 < f.length → f[i]? ≠ some s.fend := by
  obtain ⟨mid, hf, hmem⟩ := readFrame_some_shape s st f st2 h
  subst hf
  refine ⟨?_, rfl, ?_, ?_⟩
  · simp only [List.length_cons, List.length_append, List.length_singleton, List.length_nil]
    omega
  · rw [← List.cons_append, List.getLast?_concat]
  · intro i hi hlen
    cases i with
    | zero => omega
    | succ j =>
      simp only [List.getElem?_cons_succ]
      have hj : j < mid.length := by
        simp only [List.length_cons, List.length_append, List.length_singleton, List.length_nil] at hlen
        omega
      rw [List.getElem?_append, if_pos hj, List.getElem?_eq_getElem hj]
      intro heq
      have hje : mid[j] = s.fend := by
        simpa using heq
      exact hmem (hje ▸ List.getElem_mem hj)

/-- **C9** witness on a concrete single-frame source. -/
theorem C9_frame_witness :
    readFrame SpecialChars.default ⟨[.chunk [126, 1, 126]], []⟩ =
      (some [126, 1, 126], ⟨[], []⟩) ∧
    2 ≤ ([126, 1, 126] : List Nat).length ∧
    ([126, 1, 126] : List Nat).head? = some SpecialChars.default.fend ∧
    ([126, 1, 126] : List Nat).getLast? = some SpecialChars.default.fend ∧
    ([126, 1, 126] : List Nat)[1]? ≠ some SpecialChars.default.fend := by
  have h : readFrame SpecialChars.default ⟨[.chunk [126, 1, 126]], []⟩ =
      (some [126, 1, 126], ⟨[], []⟩) := by decide
  have h2 := C9_returned_frame_delimited SpecialChars.default _ _ _ h
  exact ⟨h, h2.1, h2.2.1, h2.2.2.1, h2.2.2.2 1 (by omega) (by decide)⟩

/-- **C10**: an I/O error from the source is treated exactly like a read
of zero bytes, and with an empty pending buffer the call returns `None`,
indistinguishable from end-of-stream. -/
theorem C10_io_error_swallowed (s : SpecialChars) (tl : List ReadRes) (rest : List Nat) :
    readFrame s ⟨.ioErr :: tl, rest⟩ = readFrame s ⟨.chunk [] :: tl, rest⟩ ∧
    (rest = [] → readFrame s ⟨.ioErr :: tl, rest⟩ = (none, ⟨tl, []⟩)) := by
  constructor
  · rfl
  · intro h
    subst h
    rfl

/-- **C10** witness: a lone erroring read with an empty pending buffer. -/
theorem C10_io_error_witness :
    readFrame SpecialChars.default ⟨[.ioErr], []⟩ = (none, ⟨[], []⟩) :=
  (C10_io_error_swallowed SpecialChars.default [] []).2 rfl

end Hdlc
